import Mathlib

/-!
Verification of the BaapTubeX downloader core (src/main.py, src/utils/downloader.py).

Python strings are modelled as `List Char` (wrapped in `String` at the interface).
Python `re.sub`/`str.replace` for the concrete patterns appearing in the source are
modelled by a left-to-right, non-overlapping literal scanner (`scanF` below); for the
two regexes of `convert_to_nocookie_url` the optional groups expand to six literal
alternatives of which at most one can match at a given position (no alternative is a
prefix of another), so Python's leftmost greedy matching coincides with scanning a
list of literals.
-/

namespace BaapTube

/-- `leadsWith p s` is true when `p` is an initial segment of `s`
(Python `s.startswith(p)`). -/
def leadsWith : List Char → List Char → Bool
  | [], _ => true
  | _ :: _, [] => false
  | a :: as, b :: bs => a == b && leadsWith as bs

/-- `hasSub p s` is true when `p` occurs as a contiguous substring of `s`
(Python `p in s`). -/
def hasSub (p : List Char) : List Char → Bool
  | [] => leadsWith p []
  | c :: t => leadsWith p (c :: t) || hasSub p t

/-- First literal of `lits` that is an initial segment of `s`. -/
def firstHit (lits : List (List Char)) (s : List Char) : Option (List Char) :=
  lits.find? (fun p => leadsWith p s)

/-- Fuel-indexed scanner: walk `s` left to right; at each position, if some literal
of `lits` starts there, emit `repl` and resume after the matched literal, otherwise
copy one character.  With `fuel = s.length` this is Python's
`re.sub(p₁|...|pₙ, repl, s)` for literal alternatives none of which is a prefix of
another (then at most one alternative matches at each position, so the choice of
alternative is forced and greedy order is irrelevant). -/
def scanF (lits : List (List Char)) (repl : List Char) : Nat → List Char → List Char
  | 0, s => s
  | _ + 1, [] => []
  | fuel + 1, c :: cs =>
    match firstHit lits (c :: cs) with
    | some p => repl ++ scanF lits repl fuel (cs.drop (p.length - 1))
    | none => c :: scanF lits repl fuel cs

/-- Python-style substitution of a set of literal alternatives. -/
def pySub (lits : List (List Char)) (repl : List Char) (s : List Char) : List Char :=
  scanF lits repl s.length s

/-- The six literal alternatives of the regex
"(?:https?://)?(?:www\\.)?youtu\\.be/", in greedy preference order. -/
def ytbeLits : List (List Char) :=
  [("https://www.youtu.be/").data, ("https://youtu.be/").data,
   ("http://www.youtu.be/").data, ("http://youtu.be/").data,
   ("www.youtu.be/").data, ("youtu.be/").data]

/-- Replacement for the first substitution in `convert_to_nocookie_url`. -/
def ytbeRepl : List Char := ("https://www.youtube-nocookie.com/watch?v=").data

/-- The six literal alternatives of the regex
"(?:https?://)?(?:www\\.)?youtube\\.com", in greedy preference order. -/
def ytcomLits : List (List Char) :=
  [("https://www.youtube.com").data, ("https://youtube.com").data,
   ("http://www.youtube.com").data, ("http://youtube.com").data,
   ("www.youtube.com").data, ("youtube.com").data]

/-- Replacement for the second substitution in `convert_to_nocookie_url`. -/
def ytcomRepl : List Char := ("https://www.youtube-nocookie.com").data

/-- Embedding of `convert_to_nocookie_url` (src/utils/downloader.py:124-128):
first rewrite youtu.be short links to nocookie watch URLs, then rewrite
youtube.com hosts to the nocookie host. -/
def convert_to_nocookie_url (url : String) : String :=
  String.mk (pySub ytcomLits ytcomRepl (pySub ytbeLits ytbeRepl url.data))

/-- Faithfulness check: no alternative of either pattern is a prefix of another,
so at most one alternative matches at any position and `List.find?` picks the
unique match, exactly as Python's greedy alternative choice does. -/
theorem lits_mutually_exclusive :
    (∀ p ∈ ytbeLits, ∀ q ∈ ytbeLits, p ≠ q → leadsWith p q = false) ∧
    (∀ p ∈ ytcomLits, ∀ q ∈ ytcomLits, p ≠ q → leadsWith p q = false) := by
  decide

/-! ### Basic facts about `leadsWith` and `hasSub` -/

theorem leadsWith_iff {p s : List Char} : leadsWith p s = true ↔ ∃ t, s = p ++ t := by
  induction p generalizing s with
  | nil => simp [leadsWith]
  | cons a as ih =>
    cases s with
    | nil => simp [leadsWith]
    | cons b bs =>
      simp only [leadsWith, Bool.and_eq_true, beq_iff_eq, ih, List.cons_append]
      constructor
      · rintro ⟨rfl, t, rfl⟩; exact ⟨t, rfl⟩
      · rintro ⟨t, h⟩
        injection h with h1 h2
        exact ⟨h1.symm, t, h2⟩

theorem leadsWith_append (p t : List Char) : leadsWith p (p ++ t) = true :=
  leadsWith_iff.mpr ⟨t, rfl⟩

theorem leadsWith_refl (p : List Char) : leadsWith p p = true := by
  simpa using leadsWith_append p []

theorem leadsWith_nil_elim {p : List Char} (h : leadsWith p [] = true) : p = [] := by
  cases p with
  | nil => rfl
  | cons a as => simp [leadsWith] at h

theorem leadsWith_length_le {p s : List Char} (h : leadsWith p s = true) :
    p.length ≤ s.length := by
  obtain ⟨t, rfl⟩ := leadsWith_iff.mp h
  simp

theorem leadsWith_append_of {p u : List Char} (v : List Char)
    (h : leadsWith p u = true) : leadsWith p (u ++ v) = true := by
  obtain ⟨t, rfl⟩ := leadsWith_iff.mp h
  simpa [List.append_assoc] using leadsWith_append p (t ++ v)

/-- Splitting an initial-segment match over an append: the match lies inside `a`,
or it exhausts `a` and continues in `b`. -/
theorem leadsWith_append_cases {p a b : List Char}
    (h : leadsWith p (a ++ b) = true) :
    (p.length ≤ a.length ∧ leadsWith p a = true) ∨
    (a.length ≤ p.length ∧ leadsWith a p = true ∧
      leadsWith (p.drop a.length) b = true) := by
  induction a generalizing p with
  | nil =>
    right
    simpa [leadsWith] using h
  | cons x a' ih =>
    cases p with
    | nil => exact Or.inl (by simp [leadsWith])
    | cons y p' =>
      rw [List.cons_append] at h
      simp only [leadsWith, Bool.and_eq_true, beq_iff_eq] at h
      obtain ⟨rfl, h2⟩ := h
      rcases ih h2 with ⟨hl, hw⟩ | ⟨hl, hw, hd⟩
      · exact Or.inl ⟨by simpa using Nat.succ_le_succ hl,
          by simp [leadsWith, hw]⟩
      · exact Or.inr ⟨by simpa using Nat.succ_le_succ hl,
          by simp [leadsWith, hw], by simpa using hd⟩

theorem hasSub_iff_drop {p s : List Char} :
    hasSub p s = true ↔ ∃ i, leadsWith p (s.drop i) = true := by
  induction s with
  | nil =>
    simp only [hasSub]
    exact ⟨fun h => ⟨0, h⟩, fun ⟨i, h⟩ => by simpa using h⟩
  | cons c t ih =>
    simp only [hasSub, Bool.or_eq_true, ih]
    constructor
    · rintro (h | ⟨i, h⟩)
      · exact ⟨0, h⟩
      · exact ⟨i + 1, h⟩
    · rintro ⟨i, h⟩
      cases i with
      | zero => exact Or.inl h
      | succ j => exact Or.inr ⟨j, h⟩

theorem hasSub_of_leadsWith {p s : List Char} (h : leadsWith p s = true) :
    hasSub p s = true :=
  hasSub_iff_drop.mpr ⟨0, h⟩

theorem hasSub_iff {p s : List Char} :
    hasSub p s = true ↔ ∃ u v, s = u ++ p ++ v := by
  rw [hasSub_iff_drop]
  constructor
  · rintro ⟨i, h⟩
    obtain ⟨t, ht⟩ := leadsWith_iff.mp h
    exact ⟨s.take i, t, by rw [List.append_assoc, ← ht, List.take_append_drop]⟩
  · rintro ⟨u, v, rfl⟩
    refine ⟨u.length, ?_⟩
    rw [List.append_assoc, List.drop_left]
    exact leadsWith_append p v

theorem hasSub_append_right {p b : List Char} (a : List Char)
    (h : hasSub p b = true) : hasSub p (a ++ b) = true := by
  obtain ⟨u, v, rfl⟩ := hasSub_iff.mp h
  exact hasSub_iff.mpr ⟨a ++ u, v, by simp [List.append_assoc]⟩

theorem hasSub_append_left {p a : List Char} (b : List Char)
    (h : hasSub p a = true) : hasSub p (a ++ b) = true := by
  obtain ⟨u, v, rfl⟩ := hasSub_iff.mp h
  exact hasSub_iff.mpr ⟨u, v ++ b, by simp [List.append_assoc]⟩

theorem hasSub_of_hasSub_leadsWith {c p s : List Char}
    (h1 : hasSub c p = true) (h2 : leadsWith p s = true) : hasSub c s = true := by
  obtain ⟨u, v, rfl⟩ := hasSub_iff.mp h1
  obtain ⟨t, rfl⟩ := leadsWith_iff.mp h2
  exact hasSub_iff.mpr ⟨u, v ++ t, by simp [List.append_assoc]⟩

theorem hasSub_of_drop {p s : List Char} (n : Nat)
    (h : hasSub p (s.drop n) = true) : hasSub p s = true := by
  have := hasSub_append_right (s.take n) h
  rwa [List.take_append_drop] at this

theorem hasSub_cons_false {p : List Char} {c : Char} {t : List Char}
    (h : hasSub p (c :: t) = false) :
    leadsWith p (c :: t) = false ∧ hasSub p t = false := by
  simpa [hasSub, Bool.or_eq_false_iff] using h

theorem firstHit_none_elim {L : List (List Char)} {s : List Char}
    (h : firstHit L s = none) : ∀ p ∈ L, leadsWith p s = false := by
  intro p hp
  unfold firstHit at h
  have := List.find?_eq_none.mp h p hp
  simpa using this

theorem firstHit_some_elim {L : List (List Char)} {s : List Char} {p : List Char}
    (h : firstHit L s = some p) : p ∈ L ∧ leadsWith p s = true := by
  unfold firstHit at h
  refine ⟨List.mem_of_find?_eq_some h, ?_⟩
  have := List.find?_some h
  simpa using this

/-! ### The scanner is the identity on occurrence-free strings, and its output is
occurrence-free.  `core` is the mandatory literal core of a pattern family `L`
(every alternative contains it; the bare core is itself an alternative). -/

/-- If `core` occurs in every alternative of `L` and does not occur in `s`,
the substitution leaves `s` unchanged. -/
theorem scanF_id {L : List (List Char)} {R core : List Char}
    (hK2 : ∀ p ∈ L, hasSub core p = true) :
    ∀ fuel s, hasSub core s = false → scanF L R fuel s = s := by
  intro fuel
  induction fuel with
  | zero => intro s _; rfl
  | succ n ih =>
    intro s hs
    cases s with
    | nil => rfl
    | cons c cs =>
      obtain ⟨hlw, hcs⟩ := hasSub_cons_false hs
      cases hh : firstHit L (c :: cs) with
      | some p =>
        obtain ⟨hpL, hp⟩ := firstHit_some_elim hh
        have : hasSub core (c :: cs) = true :=
          hasSub_of_hasSub_leadsWith (hK2 p hpL) hp
        rw [this] at hs
        cases hs
      | none =>
        simp only [scanF, hh]
        rw [ih cs hcs]

/-- Core lemma about scanner output.  Under the boundary conditions on the
replacement `R` and the pattern core `core` (no occurrence of `core` inside `R`,
no nonempty suffix of `R` starts `core`, no proper suffix of `core` starts `R`),
and provided either the bare core is itself an alternative (so the scanner
removes every occurrence) or the input was already occurrence-free, the output
contains no occurrence of `core`; moreover a proper suffix of `core` leading the
output must already lead the input. -/
theorem scanF_main {L : List (List Char)} {R core : List Char}
    (hK3 : hasSub core R = false)
    (hK4 : ∀ i, i < R.length → leadsWith (R.drop i) core = false)
    (hK5 : ∀ m, 1 ≤ m → m < core.length → leadsWith (core.drop m) R = false)
    (hK6 : core ≠ [])
    (hK8 : core.length ≤ R.length) :
    ∀ fuel s, s.length ≤ fuel → (core ∈ L ∨ hasSub core s = false) →
      hasSub core (scanF L R fuel s) = false ∧
      (∀ m, 1 ≤ m → m < core.length →
        leadsWith (core.drop m) (scanF L R fuel s) = true →
        leadsWith (core.drop m) s = true) := by
  intro fuel
  induction fuel with
  | zero =>
    intro s hlen _
    have hs : s = [] := List.length_eq_zero.mp (Nat.le_zero.mp hlen)
    subst hs
    constructor
    · show hasSub core [] = false
      cases hc : core with
      | nil => exact absurd hc hK6
      | cons a as => simp [hasSub, leadsWith]
    · intro m hm1 hm2 hlw
      exact hlw
  | succ n ih =>
    intro s hlen hocc
    cases s with
    | nil =>
      constructor
      · show hasSub core [] = false
        cases hc : core with
        | nil => exact absurd hc hK6
        | cons a as => simp [hasSub, leadsWith]
      · intro m hm1 hm2 hlw
        exact hlw
    | cons c cs =>
      have hcs_len : cs.length ≤ n := by simpa using hlen
      cases hh : firstHit L (c :: cs) with
      | some p =>
        -- a match at this position: output is R ++ scanned rest
        simp only [scanF, hh]
        have hrest_len : (cs.drop (p.length - 1)).length ≤ n := by
          have := List.length_drop (p.length - 1) cs
          omega
        have hrest_occ : core ∈ L ∨ hasSub core (cs.drop (p.length - 1)) = false := by
          rcases hocc with hL | hno
          · exact Or.inl hL
          · right
            rcases hfree : hasSub core (cs.drop (p.length - 1)) with _ | _
            · rfl
            · have := hasSub_of_drop (p.length - 1) hfree
              have h2 := (hasSub_cons_false hno).2
              rw [this] at h2; cases h2
        obtain ⟨ihA, ihB⟩ := ih (cs.drop (p.length - 1)) hrest_len hrest_occ
        set O := scanF L R n (cs.drop (p.length - 1)) with hO
        constructor
        · -- no occurrence of core in R ++ O
          rcases hout : hasSub core (R ++ O) with _ | _
          · rfl
          · exfalso
            obtain ⟨i, hi⟩ := hasSub_iff_drop.mp hout
            by_cases hiR : i < R.length
            · rw [List.drop_append_of_le_length (Nat.le_of_lt hiR)] at hi
              rcases leadsWith_append_cases hi with ⟨_, hin⟩ | ⟨_, hsuf, _⟩
              · have : hasSub core R = true :=
                  hasSub_of_drop i (hasSub_of_leadsWith hin)
                rw [this] at hK3; cases hK3
              · have := hK4 i hiR
                rw [hsuf] at this; cases this
            · have hiR' : R.length ≤ i := Nat.le_of_not_lt hiR
              have hdrop : (R ++ O).drop i = O.drop (i - R.length) := by
                have h1 : ((R ++ O).drop R.length).drop (i - R.length) =
                    (R ++ O).drop (R.length + (i - R.length)) := List.drop_drop _ _ _
                rw [List.drop_left] at h1
                rw [h1]
                congr 1
                omega
              rw [hdrop] at hi
              have : hasSub core O = true :=
                hasSub_of_drop (i - R.length) (hasSub_of_leadsWith hi)
              rw [this] at ihA; cases ihA
        · -- proper suffixes of core cannot lead R ++ O
          intro m hm1 hm2 hlw
          exfalso
          have hmlen : (core.drop m).length < R.length := by
            have := List.length_drop m core
            omega
          rcases leadsWith_append_cases hlw with ⟨_, hin⟩ | ⟨hge, _, _⟩
          · have := hK5 m hm1 hm2
            rw [hin] at this; cases this
          · omega
      | none =>
        -- no match here: output is c :: scanned tail
        simp only [scanF, hh]
        have htail_occ : core ∈ L ∨ hasSub core cs = false := by
          rcases hocc with hL | hno
          · exact Or.inl hL
          · exact Or.inr (hasSub_cons_false hno).2
        obtain ⟨ihA, ihB⟩ := ih cs hcs_len htail_occ
        set O := scanF L R n cs with hO
        have key : ∀ m, m < core.length →
            leadsWith (core.drop m) (c :: O) = true →
            leadsWith (core.drop m) (c :: cs) = true := by
          intro m hm hlw
          have hne : core.drop m ≠ [] := by
            intro hnil
            have := List.length_drop m core
            rw [hnil] at this
            simp at this
            omega
          obtain ⟨d, rest, hdr⟩ := List.exists_cons_of_ne_nil hne
          have hrest : rest = core.drop (m + 1) := by
            have h1 : (core.drop m).tail = core.drop (m + 1) := by
              rw [List.tail_drop]
            rw [hdr] at h1
            simpa using h1
          rw [hdr] at hlw ⊢
          simp only [leadsWith, Bool.and_eq_true, beq_iff_eq] at hlw ⊢
          obtain ⟨rfl, hlw2⟩ := hlw
          refine ⟨rfl, ?_⟩
          by_cases hm1 : m + 1 < core.length
          · have := ihB (m + 1) (by omega) hm1 (by rw [← hrest]; exact hlw2)
            rw [← hrest] at this
            exact this
          · have : rest = [] := by
              rw [hrest]
              have := List.length_drop (m + 1) core
              have hz : (core.drop (m + 1)).length = 0 := by omega
              exact List.length_eq_zero.mp hz
            rw [this]
            rfl
        constructor
        · rcases hout : hasSub core (c :: O) with _ | _
          · rfl
          · exfalso
            rcases (Bool.or_eq_true _ _).mp
                (by rw [← hout]; rfl : (leadsWith core (c :: O) || hasSub core O) = true)
              with hlw | hsub
            · -- core matches at this very position: contradicts no-hit / no-occurrence
              have hc0 : leadsWith core (c :: cs) = true := by
                have : (0 : Nat) < core.length := by
                  cases hc : core with
                  | nil => exact absurd hc hK6
                  | cons a as => simp
                have := key 0 this (by simpa using hlw)
                simpa using this
              rcases hocc with hL | hno
              · have := firstHit_none_elim hh core hL
                rw [hc0] at this; cases this
              · have : hasSub core (c :: cs) = true := hasSub_of_leadsWith hc0
                rw [this] at hno; cases hno
            · rw [hsub] at ihA; cases ihA
        · intro m hm1 hm2 hlw
          exact key m hm2 hlw

/-! ### Instantiation of the scanner lemmas to the two patterns of
`convert_to_nocookie_url` -/

/-- Mandatory core of every alternative of the first pattern. -/
def ytbeCore : List Char := ("youtu.be/").data

/-- Mandatory core of every alternative of the second pattern. -/
def ytcomCore : List Char := ("youtube.com").data

theorem pySub_ytbe_kills (s : List Char) :
    hasSub ytbeCore (pySub ytbeLits ytbeRepl s) = false :=
  (@scanF_main ytbeLits ytbeRepl ytbeCore
    (by decide) (by decide) (by decide) (by decide) (by decide)
    s.length s (Nat.le_refl _) (Or.inl (by decide))).1

theorem pySub_ytcom_kills (s : List Char) :
    hasSub ytcomCore (pySub ytcomLits ytcomRepl s) = false :=
  (@scanF_main ytcomLits ytcomRepl ytcomCore
    (by decide) (by decide) (by decide) (by decide) (by decide)
    s.length s (Nat.le_refl _) (Or.inl (by decide))).1

theorem pySub_ytcom_preserves {s : List Char}
    (h : hasSub ytbeCore s = false) :
    hasSub ytbeCore (pySub ytcomLits ytcomRepl s) = false :=
  (@scanF_main ytcomLits ytcomRepl ytbeCore
    (by decide) (by decide) (by decide) (by decide) (by decide)
    s.length s (Nat.le_refl _) (Or.inr h)).1

theorem pySub_ytbe_id {s : List Char} (h : hasSub ytbeCore s = false) :
    pySub ytbeLits ytbeRepl s = s :=
  scanF_id (by decide) s.length s h

theorem pySub_ytcom_id {s : List Char} (h : hasSub ytcomCore s = false) :
    pySub ytcomLits ytcomRepl s = s :=
  scanF_id (by decide) s.length s h

/-- C8: URL normalization is idempotent: for every input string `u`,
`convert_to_nocookie_url (convert_to_nocookie_url u) = convert_to_nocookie_url u`.
After one pass neither "youtu.be/" nor "youtube.com" occurs in the output (the
replacement strings contain no occurrence and cannot create one across a
boundary), so both substitutions of the second pass are the identity. -/
theorem convert_to_nocookie_url_idempotent (u : String) :
    convert_to_nocookie_url (convert_to_nocookie_url u) =
      convert_to_nocookie_url u := by
  show String.mk (pySub ytcomLits ytcomRepl (pySub ytbeLits ytbeRepl
      (pySub ytcomLits ytcomRepl (pySub ytbeLits ytbeRepl u.data)))) =
    String.mk (pySub ytcomLits ytcomRepl (pySub ytbeLits ytbeRepl u.data))
  have h1 : hasSub ytbeCore
      (pySub ytcomLits ytcomRepl (pySub ytbeLits ytbeRepl u.data)) = false :=
    pySub_ytcom_preserves (pySub_ytbe_kills u.data)
  have h2 : hasSub ytcomCore
      (pySub ytcomLits ytcomRepl (pySub ytbeLits ytbeRepl u.data)) = false :=
    pySub_ytcom_kills (pySub ytbeLits ytbeRepl u.data)
  rw [pySub_ytbe_id h1, pySub_ytcom_id h2]

/-! ### URL normalizer (spec-modelled)

`main.py` imports `normalize_youtube_url` from `utils.downloader` and calls it on
every inbound URL (src/main.py:12-18, 373), but no definition of it exists in
the source tree.  The definitions below are therefore modelled from the spec. -/

/-- Modelled from the spec: character class of the 11-character video-identifier
token matched by the URL Normalizer (spec section 4.1); the function
`normalize_youtube_url` itself is missing from src/utils/downloader.py. -/
def videoIdChar (c : Char) : Bool := c.isAlphanum || c == '-' || c == '_'

/-- Modelled from the spec: an 11-character video-identifier token. -/
def isVideoId (s : String) : Bool := s.length == 11 && s.data.all videoIdChar

/-- Short-link surface form for a video id. -/
def surfaceShort (id : String) : String := "https://youtu.be/" ++ id

/-- "shorts" path surface form for a video id. -/
def surfaceShorts (id : String) : String := "https://www.youtube.com/shorts/" ++ id

/-- "embed" path surface form for a video id. -/
def surfaceEmbed (id : String) : String := "https://www.youtube.com/embed/" ++ id

/-- Canonical "watch" query-parameter surface form for a video id. -/
def surfaceWatch (id : String) : String := "https://www.youtube.com/watch?v=" ++ id

/-- The canonical watch URL the spec's normalizer rewrites to. -/
def canonicalWatch (id : String) : String := "https://www.youtube.com/watch?v=" ++ id

/-- Try to match one surface form: the fixed head followed by an 11-character
video id. -/
def matchForm (head : String) (u : String) : Option String :=
  let rest := String.mk (u.data.drop head.data.length)
  if leadsWith head.data u.data && isVideoId rest then some rest else none

/-- Modelled from the spec: recognizer for the four surface forms
(short-link, "shorts" path, "embed" path, "watch" query parameter). -/
def recognizeSurface (u : String) : Option String :=
  match matchForm "https://youtu.be/" u with
  | some id => some id
  | none =>
    match matchForm "https://www.youtube.com/shorts/" u with
    | some id => some id
    | none =>
      match matchForm "https://www.youtube.com/embed/" u with
      | some id => some id
      | none => matchForm "https://www.youtube.com/watch?v=" u

/-- Modelled from the spec: `normalize_youtube_url` — absent from
src/utils/downloader.py although imported and called by src/main.py.  Spec
section 4.1: rewrite any recognized surface form to the canonical
`watch?v=<id>` shape; pass unrecognized input through unchanged; never raise
(the function is total by construction). -/
def normalize_youtube_url (u : String) : String :=
  match recognizeSurface u with
  | some id => canonicalWatch id
  | none => u

theorem leadsWith_false_of_mismatch (common : List Char) {a b : Char}
    (p2 s2 : List Char) (hab : (a == b) = false) :
    leadsWith (common ++ a :: p2) (common ++ b :: s2) = false := by
  induction common with
  | nil => simp [leadsWith, hab]
  | cons x xs ih => simpa [leadsWith] using ih

theorem matchForm_pos (head id : String) (hid : isVideoId id = true) :
    matchForm head (head ++ id) = some id := by
  show (if leadsWith head.data (head ++ id).data &&
        isVideoId (String.mk ((head ++ id).data.drop head.data.length))
      then some (String.mk ((head ++ id).data.drop head.data.length))
      else none) = some id
  have h1 : (head ++ id).data = head.data ++ id.data := rfl
  rw [h1, List.drop_left, leadsWith_append]
  have h2 : String.mk id.data = id := rfl
  rw [h2, hid]
  rfl

theorem matchForm_neg (head u : String) (h : leadsWith head.data u.data = false) :
    matchForm head u = none := by
  show (if leadsWith head.data u.data &&
        isVideoId (String.mk (u.data.drop head.data.length))
      then some (String.mk (u.data.drop head.data.length))
      else none) = none
  rw [h]
  rfl

theorem mm_short_shorts (id : String) :
    leadsWith ("https://youtu.be/").data
      ("https://www.youtube.com/shorts/" ++ id).data = false := by
  have h1 : ("https://youtu.be/").data =
      ("https://").data ++ 'y' :: ("outu.be/").data := rfl
  have h2 : ("https://www.youtube.com/shorts/" ++ id).data =
      ("https://").data ++ 'w' :: (("ww.youtube.com/shorts/").data ++ id.data) := rfl
  rw [h1, h2]
  exact leadsWith_false_of_mismatch _ _ _ (by decide)

theorem mm_short_embed (id : String) :
    leadsWith ("https://youtu.be/").data
      ("https://www.youtube.com/embed/" ++ id).data = false := by
  have h1 : ("https://youtu.be/").data =
      ("https://").data ++ 'y' :: ("outu.be/").data := rfl
  have h2 : ("https://www.youtube.com/embed/" ++ id).data =
      ("https://").data ++ 'w' :: (("ww.youtube.com/embed/").data ++ id.data) := rfl
  rw [h1, h2]
  exact leadsWith_false_of_mismatch _ _ _ (by decide)

theorem mm_short_watch (id : String) :
    leadsWith ("https://youtu.be/").data
      ("https://www.youtube.com/watch?v=" ++ id).data = false := by
  have h1 : ("https://youtu.be/").data =
      ("https://").data ++ 'y' :: ("outu.be/").data := rfl
  have h2 : ("https://www.youtube.com/watch?v=" ++ id).data =
      ("https://").data ++ 'w' :: (("ww.youtube.com/watch?v=").data ++ id.data) := rfl
  rw [h1, h2]
  exact leadsWith_false_of_mismatch _ _ _ (by decide)

theorem mm_shorts_embed (id : String) :
    leadsWith ("https://www.youtube.com/shorts/").data
      ("https://www.youtube.com/embed/" ++ id).data = false := by
  have h1 : ("https://www.youtube.com/shorts/").data =
      ("https://www.youtube.com/").data ++ 's' :: ("horts/").data := rfl
  have h2 : ("https://www.youtube.com/embed/" ++ id).data =
      ("https://www.youtube.com/").data ++ 'e' :: (("mbed/").data ++ id.data) := rfl
  rw [h1, h2]
  exact leadsWith_false_of_mismatch _ _ _ (by decide)

theorem mm_shorts_watch (id : String) :
    leadsWith ("https://www.youtube.com/shorts/").data
      ("https://www.youtube.com/watch?v=" ++ id).data = false := by
  have h1 : ("https://www.youtube.com/shorts/").data =
      ("https://www.youtube.com/").data ++ 's' :: ("horts/").data := rfl
  have h2 : ("https://www.youtube.com/watch?v=" ++ id).data =
      ("https://www.youtube.com/").data ++ 'w' :: (("atch?v=").data ++ id.data) := rfl
  rw [h1, h2]
  exact leadsWith_false_of_mismatch _ _ _ (by decide)

theorem mm_embed_watch (id : String) :
    leadsWith ("https://www.youtube.com/embed/").data
      ("https://www.youtube.com/watch?v=" ++ id).data = false := by
  have h1 : ("https://www.youtube.com/embed/").data =
      ("https://www.youtube.com/").data ++ 'e' :: ("mbed/").data := rfl
  have h2 : ("https://www.youtube.com/watch?v=" ++ id).data =
      ("https://www.youtube.com/").data ++ 'w' :: (("atch?v=").data ++ id.data) := rfl
  rw [h1, h2]
  exact leadsWith_false_of_mismatch _ _ _ (by decide)

theorem recognize_short (id : String) (hid : isVideoId id = true) :
    recognizeSurface (surfaceShort id) = some id := by
  show recognizeSurface ("https://youtu.be/" ++ id) = some id
  unfold recognizeSurface
  rw [matchForm_pos _ _ hid]

theorem recognize_shorts (id : String) (hid : isVideoId id = true) :
    recognizeSurface (surfaceShorts id) = some id := by
  show recognizeSurface ("https://www.youtube.com/shorts/" ++ id) = some id
  unfold recognizeSurface
  rw [matchForm_neg _ _ (mm_short_shorts id), matchForm_pos _ _ hid]

theorem recognize_embed (id : String) (hid : isVideoId id = true) :
    recognizeSurface (surfaceEmbed id) = some id := by
  show recognizeSurface ("https://www.youtube.com/embed/" ++ id) = some id
  unfold recognizeSurface
  rw [matchForm_neg _ _ (mm_short_embed id), matchForm_neg _ _ (mm_shorts_embed id),
    matchForm_pos _ _ hid]

theorem recognize_watch (id : String) (hid : isVideoId id = true) :
    recognizeSurface (surfaceWatch id) = some id := by
  show recognizeSurface ("https://www.youtube.com/watch?v=" ++ id) = some id
  unfold recognizeSurface
  rw [matchForm_neg _ _ (mm_short_watch id), matchForm_neg _ _ (mm_shorts_watch id),
    matchForm_neg _ _ (mm_embed_watch id), matchForm_pos _ _ hid]

/-- C7: (spec-modelled, as `normalize_youtube_url` is absent from the source)
the URL normalizer maps all four recognized surface forms carrying the same
11-character video id to one identical canonical URL of the shape
`watch?v=<id>`, and passes every unrecognized input through unchanged.  It is a
total Lean function, so it never raises. -/
theorem normalize_youtube_url_spec (id : String) (hid : isVideoId id = true) :
    normalize_youtube_url (surfaceShort id) = canonicalWatch id ∧
    normalize_youtube_url (surfaceShorts id) = canonicalWatch id ∧
    normalize_youtube_url (surfaceEmbed id) = canonicalWatch id ∧
    normalize_youtube_url (surfaceWatch id) = canonicalWatch id ∧
    (∀ u : String, recognizeSurface u = none → normalize_youtube_url u = u) := by
  refine ⟨?_, ?_, ?_, ?_, ?_⟩
  · unfold normalize_youtube_url
    rw [recognize_short id hid]
  · unfold normalize_youtube_url
    rw [recognize_shorts id hid]
  · unfold normalize_youtube_url
    rw [recognize_embed id hid]
  · unfold normalize_youtube_url
    rw [recognize_watch id hid]
  · intro u h
    unfold normalize_youtube_url
    rw [h]

/-- Witness for C7 at the concrete video id "ABCDEFGHIJK". -/
theorem normalize_youtube_url_spec_witness :
    isVideoId "ABCDEFGHIJK" = true ∧
    (normalize_youtube_url (surfaceShort "ABCDEFGHIJK") =
        canonicalWatch "ABCDEFGHIJK" ∧
      normalize_youtube_url (surfaceShorts "ABCDEFGHIJK") =
        canonicalWatch "ABCDEFGHIJK" ∧
      normalize_youtube_url (surfaceEmbed "ABCDEFGHIJK") =
        canonicalWatch "ABCDEFGHIJK" ∧
      normalize_youtube_url (surfaceWatch "ABCDEFGHIJK") =
        canonicalWatch "ABCDEFGHIJK" ∧
      (∀ u : String, recognizeSurface u = none →
        normalize_youtube_url u = u)) :=
  ⟨by decide, normalize_youtube_url_spec "ABCDEFGHIJK" (by decide)⟩

/-! ### Format catalog entries and the format selector

`get_video_formats` (src/utils/downloader.py:814-910) produces dictionaries with
keys `format_id`, `label` and (for parsed entries only) `ext`;
`get_best_available_format` (792-812) selects among them. -/

/-- One entry of the format catalog, as produced by `get_video_formats`.
`ext` is `none` for the fallback entries, which carry no "ext" key. -/
structure Fmt where
  format_id : String
  label : String
  ext : Option String
deriving DecidableEq, Repr

/-- Python `s.replace(pat, repl)`: replace all non-overlapping occurrences,
scanning left to right. -/
def pyReplace (s pat repl : List Char) : List Char := scanF [pat] repl s.length s

/-- Python `int(s)` restricted to the label strings occurring here: a nonempty
all-digit string parses to its value, anything else raises `ValueError`
(modelled as `none`).  The whitespace/sign/underscore allowances of Python
`int` never arise for these labels. -/
def pyDigits? (s : List Char) : Option Nat :=
  if s ≠ [] ∧ s.all Char.isDigit then
    some (s.foldl (fun n c => n * 10 + (c.toNat - ('0').toNat)) 0)
  else none

/-- Height parsing of `get_best_available_format` (line 802):
`int(fmt["label"].replace("p", "").replace("60", ""))`. -/
def parseLabelHeight (label : String) : Option Nat :=
  pyDigits? (pyReplace (pyReplace label.data ("p").data []) ("60").data [])

/-- The strict order on the Python sort key
`(height > target_height, abs(height - target_height))`. -/
def heightKeyLt (target a b : Nat) : Bool :=
  (!(decide (a > target)) && decide (b > target)) ||
    (decide (a > target) == decide (b > target) &&
      decide (Nat.dist a target < Nat.dist b target))

/-- Leftmost element with minimal key: equals `sorted(xs, key)[0]`, because
Python's sort is stable and so places the leftmost minimal-key element first. -/
def selectMin (target : Nat) : List (Nat × String) → Option (Nat × String)
  | [] => none
  | x :: xs =>
    match selectMin target xs with
    | none => some x
    | some y => if heightKeyLt target y.1 x.1 then some y else some x

/-- The `valid_formats` list of `get_best_available_format` (lines 797-805):
entries with a truthy label and a non-"best" id whose label parses to a
height. -/
def validFormats (formats : List Fmt) : List (Nat × String) :=
  formats.filterMap (fun f =>
    if f.label ≠ "" ∧ f.format_id ≠ "best" then
      (parseLabelHeight f.label).map (fun h => (h, f.format_id))
    else none)

/-- Embedding of `get_best_available_format` (src/utils/downloader.py:792-812),
parameterized by the catalog that `get_video_formats(url)` returned. -/
def get_best_available_format_from (formats : List Fmt) (target_height : Nat) :
    String :=
  match selectMin target_height (validFormats formats) with
  | some hf => hf.2
  | none => "best"

/-- The selection the claim describes (refinement comparison; this definition
follows the claim's words, not the source): minimize
`(height > h, |height - h|)` over the entries' true vertical resolutions,
read as the digits before the trailing "p" of the label. -/
def trueHeight? (label : String) : Option Nat :=
  match label.data.getLast? with
  | some 'p' => pyDigits? label.data.dropLast
  | _ => none

/-- Claim-side selector over true heights (refinement comparison). -/
def claimSelect (formats : List Fmt) (target : Nat) : Option String :=
  (selectMin target (formats.filterMap (fun f =>
    if f.format_id ≠ "best" then
      (trueHeight? f.label).map (fun h => (h, f.format_id))
    else none))).map (fun hf => hf.2)

/-- C1: the selector does NOT minimize over true heights: on the catalog
`[144p entry "A", 360p entry "B"]` with target 360, the code parses "360p" as
height 3 (`"360p".replace("p","").replace("60","")` is `"3"`) and returns the
144p entry "A" (distance 216 beats 357), while the claim's minimization over
true heights picks "B" (distance 0).  The claim's three quoted examples on the
catalog with heights 360/480/720/1080 do hold. -/
theorem get_best_available_format_bug :
    get_best_available_format_from
      [⟨"A", "144p", some "mp4"⟩, ⟨"B", "360p", some "mp4"⟩] 360 = "A" ∧
    claimSelect
      [⟨"A", "144p", some "mp4"⟩, ⟨"B", "360p", some "mp4"⟩] 360 = some "B" ∧
    parseLabelHeight "360p" = some 3 ∧
    get_best_available_format_from
      [⟨"best", "Auto", none⟩, ⟨"137+140", "1080p", none⟩,
        ⟨"136+140", "720p", none⟩, ⟨"135+140", "480p", none⟩,
        ⟨"134+140", "360p", none⟩] 700 = "135+140" ∧
    get_best_available_format_from
      [⟨"best", "Auto", none⟩, ⟨"137+140", "1080p", none⟩,
        ⟨"136+140", "720p", none⟩, ⟨"135+140", "480p", none⟩,
        ⟨"134+140", "360p", none⟩] 1080 = "137+140" ∧
    get_best_available_format_from
      [⟨"best", "Auto", none⟩, ⟨"137+140", "1080p", none⟩,
        ⟨"136+140", "720p", none⟩, ⟨"135+140", "480p", none⟩,
        ⟨"134+140", "360p", none⟩] 2000 = "137+140" := by
  decide

/-! ### The format-catalog operation `get_video_formats`
(src/utils/downloader.py:814-910)

The yt-dlp subprocess is the external Extractor: it is modelled by its outcome,
`none` when the call raises (e.g. the interpreter or module is missing) and
`some (returncode, stdout lines)` when it runs.  Exceptions raised while
parsing stdout (the tuple-unpacking `ValueError` of `part.split('x')`, the
`UnboundLocalError` for `format_id`) propagate to the same outer `except` and
are modelled by `Except.error`. -/

/-- Whitespace for Python `str.strip()` / no-argument `str.split()`. -/
def isPySpace (c : Char) : Bool :=
  c == ' ' || c == '\t' || c == '\n' || c == '\r' || c == '\x0b' || c == '\x0c'

/-- Python no-argument `str.split()`: split on whitespace runs, no empty
pieces. -/
def pySplitGo (cur : List Char) : List Char → List (List Char)
  | [] => if cur = [] then [] else [cur.reverse]
  | c :: cs =>
    if isPySpace c then
      if cur = [] then pySplitGo [] cs else cur.reverse :: pySplitGo [] cs
    else pySplitGo (c :: cur) cs

/-- Python `line.split()`. -/
def pySplit (s : List Char) : List (List Char) := pySplitGo [] s

/-- Python `s.split(sep)` for a single-character separator: keeps empty
pieces. -/
def splitChar (sep : Char) : List Char → List (List Char)
  | [] => [[]]
  | a :: t =>
    match splitChar sep t with
    | [] => [[]]
    | r :: rs => if a == sep then [] :: r :: rs else (a :: r) :: rs

/-- First character is an ASCII digit (Python `part[0].isdigit()` on these
ASCII lines). -/
def headIsDigit : List Char → Bool
  | [] => false
  | c :: _ => c.isDigit

/-- The synthetic catalog entry `{"format_id": "best", "label": "Auto"}`. -/
def bestAuto : Fmt := ⟨"best", "Auto", none⟩

/-- The five-entry default catalog returned when parsing found nothing or the
whole operation raised (lines 888-895 and 903-910; the two lists are
identical). -/
def basicFormats : List Fmt :=
  [bestAuto, ⟨"137+140", "1080p", none⟩, ⟨"136+140", "720p", none⟩,
    ⟨"135+140", "480p", none⟩, ⟨"134+140", "360p", none⟩]

/-- Inner `for part in parts` loop (lines 851-885).  The `resolution` variable
is still at its initial value "unknown" whenever the append runs, because the
only assignment to it is immediately followed by `break`; that invariant is
inlined here.  A resolution-looking part with more or fewer than two
`split('x')` pieces raises `ValueError` (unpacking); an append with no
`format_id` assigned yet raises `UnboundLocalError`; both are modelled as
`Except.error`. -/
def procParts (lineLower : List Char) (fid : Option String) :
    List (List Char) → Except Unit (List Fmt)
  | [] => .ok []
  | part :: rest =>
    if hasSub (("x").data) part ∧ headIsDigit part then
      if (splitChar 'x' part).length = 2 then .ok [] else .error ()
    else if hasSub (("video").data) lineLower ∧ hasSub (("mp4").data) lineLower then
      match fid with
      | none => .error ()
      | some f =>
        match procParts lineLower fid rest with
        | .error e => .error e
        | .ok tailFmts => .ok (⟨f, "unknown", some "mp4"⟩ :: tailFmts)
    else procParts lineLower fid rest

/-- One iteration of the `for line in lines` loop (lines 837-885), threading
the `format_id` variable, which persists across lines (it is only reassigned
when a line has at least three parts, and keeps the value "format" after a
header line). -/
def procLine (fid : Option String) (line : List Char) :
    Except Unit (Option String × List Fmt) :=
  if line.all isPySpace || (match line with | c :: _ => c == '[' | [] => false) then
    .ok (fid, [])
  else
    let parts := pySplit line
    let lineLower := line.map Char.toLower
    if 3 ≤ parts.length then
      match parts with
      | [] => .ok (fid, [])
      | p0 :: _ =>
        if String.mk p0 = "format" then .ok (some (String.mk p0), [])
        else
          match procParts lineLower (some (String.mk p0)) parts with
          | .error e => .error e
          | .ok fmts => .ok (some (String.mk p0), fmts)
    else
      match procParts lineLower fid parts with
      | .error e => .error e
      | .ok fmts => .ok (fid, fmts)

/-- The whole `for line in lines` loop. -/
def parseFormatLines (fid : Option String) :
    List (List Char) → Except Unit (List Fmt)
  | [] => .ok []
  | l :: ls =>
    match procLine fid l with
    | .error e => .error e
    | .ok (fid2, fmts) =>
      match parseFormatLines fid2 ls with
      | .error e => .error e
      | .ok rest => .ok (fmts ++ rest)

/-- Embedding of `get_video_formats` (src/utils/downloader.py:814-910),
parameterized by the outcome of the yt-dlp subprocess call:
`none` = the call itself raised; `some (rc, out)` = it ran with exit code `rc`
and stdout lines `out`. -/
def get_video_formats_model (res : Option (Int × List String)) : List Fmt :=
  match res with
  | none => basicFormats
  | some (rc, out) =>
    if rc ≠ 0 then [bestAuto]
    else
      match parseFormatLines none (out.map String.data) with
      | .error _ => basicFormats
      | .ok fmts => if fmts = [] then basicFormats else bestAuto :: fmts

/-- C3 counterexample: when the extractor call itself raises (subprocess
exception), `get_video_formats` returns the five-entry default catalog, not
"exactly the single-entry fallback catalog" the claim requires for any failure
of the underlying extractor call. -/
theorem get_video_formats_exception_not_single :
    get_video_formats_model none = basicFormats ∧
    basicFormats ≠ [bestAuto] := by
  decide

/-- C3 (amended): the format-listing operation never returns an empty list and
never raises (it is total); its first entry is always the synthetic `best`
entry; a non-zero extractor exit code yields exactly the single-entry fallback
`[best/Auto]`; an extractor-call exception yields the five-entry default
catalog. -/
theorem get_video_formats_never_empty_first_best :
    ∀ res : Option (Int × List String),
      get_video_formats_model res ≠ [] ∧
      (get_video_formats_model res).head? = some bestAuto ∧
      (∀ rc out, res = some (rc, out) → rc ≠ 0 →
        get_video_formats_model res = [bestAuto]) ∧
      (res = none → get_video_formats_model res = basicFormats) := by
  intro res
  match res with
  | none =>
    refine ⟨by decide, by decide, ?_, fun _ => rfl⟩
    intro rc out h
    cases h
  | some (rc, out) =>
    by_cases hrc : rc ≠ 0
    · have hmodel : get_video_formats_model (some (rc, out)) = [bestAuto] := by
        show (if rc ≠ 0 then [bestAuto]
          else
            match parseFormatLines none (out.map String.data) with
            | .error _ => basicFormats
            | .ok fmts =>
              if fmts = [] then basicFormats else bestAuto :: fmts) = [bestAuto]
        rw [if_pos hrc]
      refine ⟨by rw [hmodel]; decide, by rw [hmodel]; rfl, ?_, ?_⟩
      · intro rc2 out2 _ _
        exact hmodel
      · intro h; cases h
    · have hshape : get_video_formats_model (some (rc, out)) = basicFormats ∨
          ∃ fmts, get_video_formats_model (some (rc, out)) = bestAuto :: fmts := by
        have hmodel : get_video_formats_model (some (rc, out)) =
            (match parseFormatLines none (out.map String.data) with
              | .error _ => basicFormats
              | .ok fmts =>
                if fmts = [] then basicFormats else bestAuto :: fmts) := by
          show (if rc ≠ 0 then [bestAuto]
            else
              match parseFormatLines none (out.map String.data) with
              | .error _ => basicFormats
              | .ok fmts =>
                if fmts = [] then basicFormats else bestAuto :: fmts) = _
          rw [if_neg hrc]
        cases hp : parseFormatLines none (out.map String.data) with
        | error e =>
          rw [hp] at hmodel
          exact Or.inl hmodel
        | ok fmts =>
          rw [hp] at hmodel
          have hmodel2 : get_video_formats_model (some (rc, out)) =
              if fmts = [] then basicFormats else bestAuto :: fmts := hmodel
          by_cases hf : fmts = []
          · rw [if_pos hf] at hmodel2
            exact Or.inl hmodel2
          · rw [if_neg hf] at hmodel2
            exact Or.inr ⟨fmts, hmodel2⟩
      have hfinal : get_video_formats_model (some (rc, out)) ≠ [] ∧
          (get_video_formats_model (some (rc, out))).head? = some bestAuto := by
        rcases hshape with h | ⟨fmts, h⟩
        · rw [h]; exact ⟨by decide, rfl⟩
        · rw [h]; exact ⟨by simp, rfl⟩
      refine ⟨hfinal.1, hfinal.2, ?_, ?_⟩
      · intro rc2 out2 h hrc2
        injection h with h2
        exfalso
        have hfst : rc = rc2 := congrArg Prod.fst h2
        rw [← hfst] at hrc2
        exact hrc hrc2
      · intro h; cases h

/-- Witness for the amended C3 at the concrete failing extractor outcome
`some (1, [])` (non-zero exit code). -/
theorem get_video_formats_never_empty_first_best_witness :
    get_video_formats_model (some (1, [])) ≠ [] ∧
    (get_video_formats_model (some (1, []))).head? = some bestAuto ∧
    get_video_formats_model (some (1, [])) = [bestAuto] :=
  ⟨(get_video_formats_never_empty_first_best (some (1, []))).1,
   (get_video_formats_never_empty_first_best (some (1, []))).2.1,
   (get_video_formats_never_empty_first_best (some (1, []))).2.2.1 1 [] rfl
     (by decide)⟩

/-- C9: the catalog is not deduplicated: the broken indentation of the parsing
loop (the append sits inside the `for part in parts` loop) emits one entry per
whitespace token preceding the resolution column, so a single stdout line
"137 mp4 1920x1080 dash video" yields two entries with format_id "137". -/
theorem get_video_formats_duplicate_ids :
    get_video_formats_model (some (0, ["137 mp4 1920x1080 dash video"])) =
      [bestAuto, ⟨"137", "unknown", some "mp4"⟩,
        ⟨"137", "unknown", some "mp4"⟩] ∧
    ((get_video_formats_model
        (some (0, ["137 mp4 1920x1080 dash video"]))).map
      Fmt.format_id).count "137" = 2 := by
  decide

/-! ### The retry orchestrator `download_with_retry`
(src/utils/downloader.py:770-790)

The wrapped `download_video_improved` call is the external retrieval engine; it
is modelled as an oracle from the 0-based attempt index to its outcome.  The
observable behaviour is the sequence of attempts and `time.sleep` calls. -/

/-- One observable event of `download_with_retry`: a download attempt
(1-based number) or a `time.sleep` of the given number of seconds. -/
inductive REvent where
  | attempt (n : Nat)
  | sleep (seconds : Nat)
deriving DecidableEq, Repr

/-- The `while retry_count < max_retries` loop of `download_with_retry`,
with `k` the current `retry_count`, `last` the current `last_error`, and
`fuel = max_retries - k` iterations remaining.  On failure the code increments
`retry_count`, computes `wait_time = 2 ** retry_count` and sleeps — also after
the final attempt, just before the loop condition fails.  When the loop ends it
raises `last_error` (which is Python `None` — modelled as `Option.none` — if no
attempt ever ran). -/
def dwrGo (download : Nat → Except String String) :
    Nat → Nat → Option String → Except (Option String) String × List REvent
  | 0, _, last => (.error last, [])
  | fuel + 1, k, _last =>
    match download k with
    | .ok s => (.ok s, [REvent.attempt (k + 1)])
    | .error e =>
      let r := dwrGo download fuel (k + 1) (some e)
      (r.1, REvent.attempt (k + 1) :: REvent.sleep (2 ^ (k + 1)) :: r.2)

/-- Embedding of `download_with_retry` (src/utils/downloader.py:770-790):
result together with the trace of attempts and sleeps. -/
def download_with_retry_model (download : Nat → Except String String)
    (max_retries : Nat) : Except (Option String) String × List REvent :=
  dwrGo download max_retries 0 none

/-- C2 counterexample: with an always-failing downloader and `max_retries = 3`
the trace ends with a sleep of 8 seconds placed AFTER the third (final)
attempt, so the orchestrator does not sleep "only before each retry": there are
only 2 retries but 3 sleeps, the last preceding no retry.  The delays are
exactly 2, 4, 8 seconds, with no random jitter. -/
theorem download_with_retry_sleeps_after_last_attempt :
    download_with_retry_model (fun _ => .error "boom") 3 =
      (.error (some "boom"),
        [REvent.attempt 1, REvent.sleep 2, REvent.attempt 2, REvent.sleep 4,
          REvent.attempt 3, REvent.sleep 8]) ∧
    (download_with_retry_model (fun _ => .error "boom") 3).2.getLast? =
      some (REvent.sleep 8) ∧
    ((download_with_retry_model (fun _ => .error "boom") 3).2.filter
      (fun e => match e with | REvent.sleep _ => true | _ => false)).length
      = 3 :=
  ⟨rfl, rfl, rfl⟩

/-- C2 (amended): when every underlying attempt fails, `download_with_retry`
with `max_retries = 3` performs exactly 3 attempts, sleeps after each failed
attempt — including the last one, which precedes no retry — with strictly
increasing deterministic delays 2, 4, 8 seconds (2**retry_count, no random
jitter), and then raises the last concrete underlying error. -/
theorem download_with_retry_exhaustion
    (download : Nat → Except String String) (err : Nat → String)
    (hfail : ∀ k, k < 3 → download k = .error (err k)) :
    download_with_retry_model download 3 =
      (.error (some (err 2)),
        [REvent.attempt 1, REvent.sleep 2, REvent.attempt 2, REvent.sleep 4,
          REvent.attempt 3, REvent.sleep 8]) := by
  unfold download_with_retry_model
  unfold dwrGo
  rw [hfail 0 (by omega)]
  unfold dwrGo
  rw [hfail 1 (by omega)]
  unfold dwrGo
  rw [hfail 2 (by omega)]
  rfl

/-- Witness for the amended C2 with the concrete always-failing downloader. -/
theorem download_with_retry_exhaustion_witness :
    download_with_retry_model (fun k => .error (toString k)) 3 =
      (.error (some "2"),
        [REvent.attempt 1, REvent.sleep 2, REvent.attempt 2, REvent.sleep 4,
          REvent.attempt 3, REvent.sleep 8]) :=
  download_with_retry_exhaustion (fun k => .error (toString k)) (fun k => toString k)
    (fun _ _ => rfl)

/-! ### The artifact cache (src/utils/downloader.py:104-122)

The filesystem is modelled as a map from paths to sizes (`none` = the path does
not exist).  The cache dictionary is keyed in the source by
`hashlib.md5(f"{url}_{format_code}".encode()).hexdigest()`; md5 is modelled as
injective, so the key is the pre-hash string itself.  `datetime` values are
modelled as seconds (`Int`); `timedelta(hours=24)` is 86400 seconds. -/

/-- Filesystem model: size of each existing file. -/
def FSm : Type := String → Option Nat

/-- Python `os.path.exists`. -/
def fexists (fs : FSm) (p : String) : Bool := (fs p).isSome

/-- Python `os.path.getsize` (only called on existing files in the source). -/
def fsize (fs : FSm) (p : String) : Nat := (fs p).getD 0

/-- One entry of `video_cache`. -/
structure CacheEntry where
  path : String
  timestamp : Int
deriving DecidableEq, Repr

/-- The in-memory `video_cache` map. -/
def CacheSt : Type := String → Option CacheEntry

/-- The cache key: md5 (modelled injective) of `f"{url}_{format_code}"`. -/
def cacheKey (url format_code : String) : String := url ++ "_" ++ format_code

/-- Embedding of `get_cached_video` (src/utils/downloader.py:104-114).  The
returned pair records the (unchanged) cache state, mirroring that the lookup
performs no mutation. -/
def get_cached_video_model (cache : CacheSt) (fs : FSm)
    (url format_code : String) (now : Int) : Option String × CacheSt :=
  match cache (cacheKey url format_code) with
  | some entry =>
    if fexists fs entry.path then
      if now - entry.timestamp < 86400 then (some entry.path, cache)
      else (none, cache)
    else (none, cache)
  | none => (none, cache)

/-- Embedding of `cache_video` (src/utils/downloader.py:116-122). -/
def cache_video_model (cache : CacheSt) (url format_code path : String)
    (now : Int) : CacheSt :=
  fun k =>
    if k = cacheKey url format_code then some ⟨path, now⟩ else cache k

/-- C6: a cache lookup returns the stored file path if and only if the stored
path still exists on disk and the entry was inserted strictly less than 24
hours before the lookup; otherwise it returns a miss, and the lookup never
mutates the cache (stale entries are not removed at lookup time). -/
theorem get_cached_video_spec (cache : CacheSt) (fs : FSm)
    (url format_code : String) (now : Int) :
    (∀ p, (get_cached_video_model cache fs url format_code now).1 = some p ↔
      ∃ e, cache (cacheKey url format_code) = some e ∧ e.path = p ∧
        fexists fs e.path = true ∧ now - e.timestamp < 86400) ∧
    (get_cached_video_model cache fs url format_code now).2 = cache := by
  cases hc : cache (cacheKey url format_code) with
  | none =>
    have h1 : get_cached_video_model cache fs url format_code now =
        (none, cache) := by
      unfold get_cached_video_model
      rw [hc]
    rw [h1]
    constructor
    · intro p
      simp [hc]
    · rfl
  | some e =>
    have h1 : get_cached_video_model cache fs url format_code now =
        if fexists fs e.path then
          if now - e.timestamp < 86400 then (some e.path, cache)
          else (none, cache)
        else (none, cache) := by
      unfold get_cached_video_model
      rw [hc]
    by_cases hex : fexists fs e.path
    · by_cases hage : now - e.timestamp < 86400
      · rw [if_pos hex, if_pos hage] at h1
        rw [h1]
        constructor
        · intro p
          constructor
          · intro hp
            injection hp with hp2
            exact ⟨e, rfl, hp2, hex, hage⟩
          · rintro ⟨e2, he2, rfl, _, _⟩
            injection he2 with h2
            rw [h2]
        · rfl
      · rw [if_pos hex, if_neg hage] at h1
        rw [h1]
        constructor
        · intro p
          constructor
          · intro hp; cases hp
          · rintro ⟨e2, he2, rfl, _, hage2⟩
            injection he2 with h2
            rw [← h2] at hage2
            exact absurd hage2 hage
        · rfl
    · rw [if_neg hex] at h1
      rw [h1]
      constructor
      · intro p
        constructor
        · intro hp; cases hp
        · rintro ⟨e2, he2, rfl, hex2, _⟩
          injection he2 with h2
          rw [← h2] at hex2
          exact absurd hex2 hex
      · rfl

/-! ### Per-client rate limiting (src/main.py:40-71)

`rate_limit_store` maps an ip to `{"count": c, "timestamp": ts}`;
`suspicious_ips` maps an ip to a counter.  `RATE_LIMIT = 5`,
`RATE_WINDOW = 60`.  Timestamps are seconds (`Int`).  The cleanup loop deletes
every entry older than the window; its effect is pointwise, so the store is
modelled as a map.  Python's `check_rate_limit` can return `True`, `False`, or
fall through returning `None` (falsy); the result is therefore
`Option Bool`. -/

/-- The two global maps of src/main.py. -/
structure RLState where
  store : String → Option (Nat × Int)
  susp : String → Option Nat

/-- The cleanup loop (lines 52-55): delete entries with
`current_time - timestamp > RATE_WINDOW`. -/
def rlCleanup (now : Int) (store : String → Option (Nat × Int)) :
    String → Option (Nat × Int) :=
  fun ip =>
    match store ip with
    | some (c, ts) => if now - ts > 60 then none else some (c, ts)
    | none => none

/-- Embedding of `check_rate_limit` (src/main.py:48-71).  The local variable
holding the cleaned store is inlined (the source reads the global map after the
cleanup loop has run). -/
def check_rate_limit_model (ip : String) (now : Int) (st : RLState) :
    Option Bool × RLState :=
  match rlCleanup now st.store ip with
  | some (c, ts) =>
    if now - ts <= 60 then
      if 5 <= c then
        (some false,
          ⟨rlCleanup now st.store, fun j =>
            if j = ip then some ((st.susp ip).getD 0 + 1) else st.susp j⟩)
      else
        (some true,
          ⟨fun j => if j = ip then some (c + 1, ts) else rlCleanup now st.store j,
            st.susp⟩)
    else (none, ⟨rlCleanup now st.store, st.susp⟩)
  | none =>
    (some true,
      ⟨fun j => if j = ip then some (1, now) else rlCleanup now st.store j,
        st.susp⟩)

/-- Run `check_rate_limit` for one ip at each time of `times` in order. -/
def runRateLimit (ip : String) : List Int → RLState → List (Option Bool) × RLState
  | [], st => ([], st)
  | t :: ts, st =>
    let r := check_rate_limit_model ip t st
    let rest := runRateLimit ip ts r.2
    (r.1 :: rest.1, rest.2)

/-- The empty initial state (no tracked requests, no suspicion). -/
def emptyRL : RLState := ⟨fun _ => none, fun _ => none⟩

theorem runRateLimit_inv (ip : String) (t0 : Int) :
    ∀ (times : List Int) (st : RLState) (c v : Nat),
      st.store ip = some (c, t0) → 1 ≤ c → c ≤ 5 →
      (st.susp ip).getD 0 = v →
      (∀ t ∈ times, t0 ≤ t ∧ t ≤ t0 + 60) →
      (runRateLimit ip times st).1 =
        List.replicate (min times.length (5 - c)) (some true) ++
        List.replicate (times.length - (5 - c)) (some false) ∧
      (runRateLimit ip times st).2.store ip =
        some (min 5 (c + times.length), t0) ∧
      ((runRateLimit ip times st).2.susp ip).getD 0 =
        v + (times.length - (5 - c)) := by
  intro times
  induction times with
  | nil =>
    intro st c v hstore h1 h5 hsusp _
    have h0 : runRateLimit ip [] st = ([], st) := rfl
    rw [h0]
    refine ⟨by simp, ?_, ?_⟩
    · show st.store ip = some (min 5 (c + List.length ([] : List Int)), t0)
      rw [hstore]
      have hm : c = min 5 (c + List.length ([] : List Int)) := by
        simp only [List.length_nil]
        omega
      rw [← hm]
    · show (st.susp ip).getD 0 = v + (List.length ([] : List Int) - (5 - c))
      rw [hsusp]
      simp
  | cons t ts ih =>
    intro st c v hstore h1 h5 hsusp hbound
    obtain ⟨hle, hge⟩ := hbound t (List.mem_cons_self t ts)
    have hbound2 : ∀ u ∈ ts, t0 ≤ u ∧ u ≤ t0 + 60 :=
      fun u hu => hbound u (List.mem_cons_of_mem t hu)
    have hclean : rlCleanup t st.store ip = some (c, t0) := by
      simp only [rlCleanup, hstore]
      rw [if_neg (by omega)]
    have hwin : t - t0 ≤ 60 := by omega
    by_cases hcap : 5 ≤ c
    · -- at the limit: returns False, bumps suspicious counter, store untouched
      have hc5 : c = 5 := by omega
      have hcall : check_rate_limit_model ip t st =
          (some false,
            ⟨rlCleanup t st.store, fun j =>
              if j = ip then some ((st.susp ip).getD 0 + 1) else st.susp j⟩) := by
        simp only [check_rate_limit_model, hclean]
        rw [if_pos hwin, if_pos hcap]
      obtain ⟨ih1, ih2, ih3⟩ := ih
        ⟨rlCleanup t st.store, fun j =>
          if j = ip then some ((st.susp ip).getD 0 + 1) else st.susp j⟩
        c (v + 1) hclean h1 h5 (by simp [hsusp]) hbound2
      simp only [runRateLimit, hcall]
      refine ⟨?_, ?_, ?_⟩
      · rw [ih1, hc5]
        simp [List.replicate_succ]
      · rw [ih2]
        have hmin : min 5 (c + ts.length) = min 5 (c + (t :: ts).length) := by
          simp only [List.length_cons]
          omega
        rw [hmin]
      · rw [ih3, hc5]
        simp only [List.length_cons]
        omega
    · -- under the limit: returns True, increments the count, timestamp kept
      have hcall : check_rate_limit_model ip t st =
          (some true,
            ⟨fun j => if j = ip then some (c + 1, t0) else rlCleanup t st.store j,
              st.susp⟩) := by
        simp only [check_rate_limit_model, hclean]
        rw [if_pos hwin, if_neg hcap]
      obtain ⟨ih1, ih2, ih3⟩ := ih
        ⟨fun j => if j = ip then some (c + 1, t0) else rlCleanup t st.store j,
          st.susp⟩
        (c + 1) v (by simp) (by omega) (by omega) hsusp hbound2
      simp only [runRateLimit, hcall]
      refine ⟨?_, ?_, ?_⟩
      · rw [ih1]
        have hA : min (t :: ts).length (5 - c) = min ts.length (5 - (c + 1)) + 1 := by
          simp only [List.length_cons]
          omega
        have hB : (t :: ts).length - (5 - c) = ts.length - (5 - (c + 1)) := by
          simp only [List.length_cons]
          omega
        rw [hA, hB, List.replicate_succ, List.cons_append]
      · rw [ih2]
        have hmin : min 5 (c + 1 + ts.length) = min 5 (c + (t :: ts).length) := by
          simp only [List.length_cons]
          omega
        rw [hmin]
      · rw [ih3]
        simp only [List.length_cons]
        omega

/-- C10: starting from an untracked ip, for calls at times all inside the
60-second window that opens at the first call's time `t0`, exactly the first 5
calls return `True`; every further call returns `False` (falsy) and increments
the ip's suspicious-activity counter; and the stored window-start timestamp
remains `t0` throughout (never refreshed). -/
theorem check_rate_limit_window (ip : String) (t0 : Int) (times : List Int)
    (st0 : RLState) (v : Nat)
    (hfresh : st0.store ip = none)
    (hsusp : (st0.susp ip).getD 0 = v)
    (hbound : ∀ t ∈ times, t0 ≤ t ∧ t ≤ t0 + 60) :
    (runRateLimit ip (t0 :: times) st0).1 =
      List.replicate (min (times.length + 1) 5) (some true) ++
      List.replicate (times.length + 1 - 5) (some false) ∧
    (runRateLimit ip (t0 :: times) st0).2.store ip =
      some (min 5 (times.length + 1), t0) ∧
    ((runRateLimit ip (t0 :: times) st0).2.susp ip).getD 0 =
      v + (times.length + 1 - 5) := by
  have hclean : rlCleanup t0 st0.store ip = none := by
    simp only [rlCleanup, hfresh]
  have hcall : check_rate_limit_model ip t0 st0 =
      (some true,
        ⟨fun j => if j = ip then some (1, t0) else rlCleanup t0 st0.store j,
          st0.susp⟩) := by
    simp only [check_rate_limit_model, hclean]
  obtain ⟨ih1, ih2, ih3⟩ := runRateLimit_inv ip t0 times
    ⟨fun j => if j = ip then some (1, t0) else rlCleanup t0 st0.store j,
      st0.susp⟩
    1 v (by simp) (by omega) (by omega) hsusp hbound
  simp only [runRateLimit, hcall]
  refine ⟨?_, ?_, ?_⟩
  · rw [ih1]
    have hA : min (times.length + 1) 5 = min times.length (5 - 1) + 1 := by omega
    have hB : times.length + 1 - 5 = times.length - (5 - 1) := by omega
    rw [hA, hB, List.replicate_succ, List.cons_append]
  · rw [ih2]
    have hmin : min 5 (1 + times.length) = min 5 (times.length + 1) := by omega
    rw [hmin]
  · rw [ih3]
    omega

/-- Witness for C10: 7 calls from one ip at seconds 0,10,20,30,40,50,60 —
five `True`s, then two falsy results, suspicious counter 2, timestamp still
0. -/
theorem check_rate_limit_window_witness :
    (runRateLimit "1.2.3.4" [0, 10, 20, 30, 40, 50, 60] emptyRL).1 =
      List.replicate 5 (some true) ++ List.replicate 2 (some false) ∧
    (runRateLimit "1.2.3.4" [0, 10, 20, 30, 40, 50, 60] emptyRL).2.store
      "1.2.3.4" = some (5, 0) ∧
    ((runRateLimit "1.2.3.4" [0, 10, 20, 30, 40, 50, 60] emptyRL).2.susp
      "1.2.3.4").getD 0 = 2 :=
  check_rate_limit_window "1.2.3.4" 0 [10, 20, 30, 40, 50, 60] emptyRL 0
    rfl rfl (by decide)

/-! ### Retrieval strategies: `download_video` and the separate-tracks fallback
(src/utils/downloader.py:353-499 and 501-665)

Filesystem mutations are the usual map updates; `os.rename` overwrites an
existing destination (POSIX semantics) and raises when the source is missing
(modelled by routing to the surrounding exception handler). -/

/-- `os.rename src dst`. -/
def frename (fs : FSm) (src dst : String) : FSm :=
  fun q => if q = dst then fs src else if q = src then none else fs q

/-- `os.remove p`. -/
def fremove (fs : FSm) (p : String) : FSm :=
  fun q => if q = p then none else fs q

theorem frename_dst (fs : FSm) (src dst : String) :
    frename fs src dst dst = fs src := by
  simp [frename]

theorem fremove_other (fs : FSm) {q p : String} (h : q ≠ p) :
    fremove fs p q = fs q := by
  simp [fremove, h]

/-- The filesystem effect of the ffmpeg subprocess on the merge target:
`some n` when it left a file of size `n` there, `none` when it wrote
nothing. -/
def remuxEffect (fs : FSm) (fin : String) : Option Nat → FSm
  | some n => fun q => if q = fin then some n else fs q
  | none => fs

/-- Lines 618-620, 627-628 and 643-645: remove the temporary audio file if
it still exists. -/
def dropAudio (fs : FSm) (ta : String) : FSm :=
  if fexists fs ta then fremove fs ta else fs

/-- The `except Exception as ffmpeg_error` handler (lines 635-649): if the
temporary video file exists and is non-empty, rename it to the final output
(dropping the audio file) and return it; otherwise raise, which propagates to
the outer handler. -/
def videoOnlyFallback (fsE : FSm) (tv ta fin : String) :
    Except String (String × FSm) :=
  if fexists fsE tv ∧ 0 < fsize fsE tv then
    .ok (fin, dropAudio (frename fsE tv fin) ta)
  else .error "Video file missing after download"

/-- The body of the inner `try` after `subprocess.run` returned (lines
600-633), on the filesystem `fs1` already holding ffmpeg's output effect.
Non-zero exit: rename the video file over the final output and drop the audio
file (a missing video source makes `os.rename` raise).  Zero exit: remove both
temporaries.  Either way, return the final output if it exists, else raise
"Final output file not found after processing" — both raises are caught by the
`ffmpeg_error` handler, so errors carry the filesystem at the raise point. -/
def remuxBranch (fs1 : FSm) (tv ta fin : String) (rc : Int) :
    Except FSm (String × FSm) :=
  if rc ≠ 0 then
    if fexists fs1 tv then
      if fexists (dropAudio (frename fs1 tv fin) ta) fin then
        .ok (fin, dropAudio (frename fs1 tv fin) ta)
      else .error (dropAudio (frename fs1 tv fin) ta)
    else .error fs1
  else
    if fexists (dropAudio (if fexists fs1 tv then fremove fs1 tv else fs1) ta) fin then
      .ok (fin, dropAudio (if fexists fs1 tv then fremove fs1 tv else fs1) ta)
    else .error (dropAudio (if fexists fs1 tv then fremove fs1 tv else fs1) ta)

/-- Embedding of the separate-tracks portion of
`download_video_with_audio_fallback` (src/utils/downloader.py:545-665), given
the filesystem `fs` after the video-only and audio-only yt-dlp downloads
returned.  `info` is the sanitized title from the metadata query (`none` = the
query raised, handled by the outer `except`); `remux` is the ffmpeg invocation
outcome (`none` = the invocation raised, `some (rc, outSize)` = it ran with
exit code `rc`, leaving `outSize` at the final output).  The final output name
is `<title>.mp4` (line 567); when only the video file arrived it is
`<urlHash>.mp4` (line 653). -/
def separateTracks (fs : FSm) (tv ta urlHash : String) (info : Option String)
    (remux : Option (Int × Option Nat)) : Except String (String × FSm) :=
  if fexists fs tv ∧ fexists fs ta then
    match info with
    | none => .error "info extraction failed"
    | some title =>
      match remux with
      | none => videoOnlyFallback fs tv ta (title ++ ".mp4")
      | some (rc, outSize) =>
        match remuxBranch (remuxEffect fs (title ++ ".mp4") outSize) tv ta
            (title ++ ".mp4") rc with
        | .ok r => .ok r
        | .error fsE => videoOnlyFallback fsE tv ta (title ++ ".mp4")
  else
    if fexists fs tv ∧ 0 < fsize fs tv then
      .ok (urlHash ++ ".mp4", frename fs tv (urlHash ++ ".mp4"))
    else .error "Failed to download video and audio files"

/-- Python `p.lower().endswith(".mp4")`. -/
def lowerEndsWithMp4 (p : String) : Bool :=
  leadsWith ((".mp4").data.reverse) ((p.data.map Char.toLower).reverse)

/-- The base part of Python `os.path.splitext(p)`: everything before the last
dot, or the whole name when there is none (sufficient for the filenames
produced here). -/
def splitextBase (p : String) : String :=
  match (p.data.reverse).dropWhile (fun c => !(c == '.')) with
  | [] => p
  | _ :: rest => String.mk rest.reverse

/-- The filename adjustment of the first attempt (lines 460-466): if the name
does not end in ".mp4" and the ".mp4" sibling exists, use the sibling. -/
def fixupExt1 (fs : FSm) (fn : String) : String :=
  if lowerEndsWithMp4 fn then fn
  else if fexists fs (splitextBase fn ++ ".mp4") then splitextBase fn ++ ".mp4"
  else fn

/-- The filename adjustment of the fallback attempt (lines 486-489): always
rewrite to the ".mp4" sibling. -/
def fixupExt2 (fn : String) : String :=
  if lowerEndsWithMp4 fn then fn else splitextBase fn ++ ".mp4"

/-- The success gate shared by both attempts of `download_video` (lines
469-471 and 491-493): the file must exist with non-zero size; then it is
cached and returned. -/
def attemptGate (fs : FSm) (cache : CacheSt) (url fc : String) (now : Int)
    (fn : String) : Option (String × CacheSt) :=
  if fexists fs fn ∧ 0 < fsize fs fn then
    some (fn, cache_video_model cache url fc fn now)
  else none

/-- Embedding of `download_video` (src/utils/downloader.py:353-499):
cache lookup first; then the main yt-dlp attempt (`a1` is the filename its
`extract_info`/`prepare_filename` produced, `none` when it raised); on any
failure the simpler-format fallback attempt `a2`; each successful attempt must
pass the exists-and-non-empty gate or the code raises/falls through. -/
def download_video_model (cache : CacheSt) (fs : FSm) (url fc : String)
    (now : Int) (a1 a2 : Option String) : Except String (String × CacheSt) :=
  match (get_cached_video_model cache fs url fc now).1 with
  | some p => .ok (p, cache)
  | none =>
    match (match a1 with
           | some fn => attemptGate fs cache url fc now (fixupExt1 fs fn)
           | none => none) with
    | some r => .ok r
    | none =>
      match a2 with
      | some fn2 =>
        match attemptGate fs cache url fc now (fixupExt2 fn2) with
        | some r => .ok r
        | none => .error "Failed to download video after multiple attempts"
      | none => .error "yt-dlp error"

theorem attemptGate_some {fs : FSm} {cache : CacheSt} {url fc : String}
    {now : Int} {fn : String} {r : String × CacheSt}
    (h : attemptGate fs cache url fc now fn = some r) :
    r.1 = fn ∧ 0 < fsize fs r.1 := by
  unfold attemptGate at h
  by_cases hc : fexists fs fn ∧ 0 < fsize fs fn
  · rw [if_pos hc] at h
    injection h with h2
    rw [← h2]
    exact ⟨rfl, hc.2⟩
  · rw [if_neg hc] at h
    cases h

theorem remuxBranch_ok {fs1 : FSm} {tv ta fin : String} {rc : Int}
    {r : String × FSm} (h : remuxBranch fs1 tv ta fin rc = .ok r) :
    fexists r.2 r.1 = true := by
  unfold remuxBranch at h
  by_cases hrc : rc ≠ 0
  · rw [if_pos hrc] at h
    by_cases htv : fexists fs1 tv = true
    · rw [if_pos htv] at h
      by_cases hfin : fexists (dropAudio (frename fs1 tv fin) ta) fin = true
      · rw [if_pos hfin] at h
        injection h with h2
        rw [← h2]
        exact hfin
      · rw [if_neg hfin] at h
        cases h
    · rw [if_neg htv] at h
      cases h
  · rw [if_neg hrc] at h
    by_cases hfin : fexists
        (dropAudio (if fexists fs1 tv then fremove fs1 tv else fs1) ta) fin = true
    · rw [if_pos hfin] at h
      injection h with h2
      rw [← h2]
      exact hfin
    · rw [if_neg hfin] at h
      cases h

theorem videoOnlyFallback_ok {fsE : FSm} {tv ta fin : String}
    {r : String × FSm} (hta : ta ≠ fin)
    (h : videoOnlyFallback fsE tv ta fin = .ok r) :
    fexists r.2 r.1 = true := by
  unfold videoOnlyFallback at h
  by_cases hc : fexists fsE tv ∧ 0 < fsize fsE tv
  · rw [if_pos hc] at h
    injection h with h2
    rw [← h2]
    show fexists (dropAudio (frename fsE tv fin) ta) fin = true
    have hval : dropAudio (frename fsE tv fin) ta fin = fsE tv := by
      unfold dropAudio
      by_cases hex : fexists (frename fsE tv fin) ta = true
      · rw [if_pos hex, fremove_other _ (Ne.symm hta), frename_dst]
      · rw [if_neg hex, frename_dst]
    unfold fexists
    rw [hval]
    exact hc.1
  · rw [if_neg hc] at h
    cases h

/-- C4 counterexample: the separate-tracks path returns a zero-byte file as a
success.  With a zero-byte temporary video file and ffmpeg failing (exit 1,
no output written), the rename-and-return path (lines 609-633) returns
"t.mp4" whose size is 0 — the verification gate the claim describes is an
existence check only there. -/
theorem separate_tracks_zero_byte_success :
    (match separateTracks
        (fun q => if q = "v.mp4" then some 0
                  else if q = "a.m4a" then some 5 else none)
        "v.mp4" "a.m4a" "h" (some "t") (some (1, none)) with
      | .ok (p, g) => some (p, g p)
      | .error _ => none) = some ("t.mp4", some 0) := rfl

/-- The `ffmpeg_error` handler satisfies the existence gate whenever the audio
temporary is not the final output name. -/
theorem vof_gate {fsE : FSm} {tv ta fin : String} (hta : ta ≠ fin) :
    (match videoOnlyFallback fsE tv ta fin with
      | .ok (p, g) => fexists g p = true
      | .error _ => True) := by
  rcases hv : videoOnlyFallback fsE tv ta fin with e | r
  · exact trivial
  · exact videoOnlyFallback_ok hta hv

/-- The whole remux case (inner try plus `ffmpeg_error` handler) satisfies the
existence gate. -/
theorem remux_case_gate {fs1 : FSm} {tv ta fin : String} {rc : Int}
    (hta : ta ≠ fin) :
    (match (match remuxBranch fs1 tv ta fin rc with
        | .ok r => Except.ok r
        | .error fsE => videoOnlyFallback fsE tv ta fin) with
      | .ok (p, g) => fexists g p = true
      | .error _ => True) := by
  rcases hb : remuxBranch fs1 tv ta fin rc with fsE | r
  · exact vof_gate hta
  · exact remuxBranch_ok hb

/-- The fallback attempt of `download_video` satisfies the non-empty gate. -/
theorem second_attempt_gate (fs : FSm) (cache : CacheSt) (url fc : String)
    (now : Int) (a2 : Option String) :
    (match (match a2 with
        | some fn2 =>
          match attemptGate fs cache url fc now (fixupExt2 fn2) with
          | some r => Except.ok r
          | none => Except.error "Failed to download video after multiple attempts"
        | none => Except.error "yt-dlp error") with
      | Except.ok (p, _) => 0 < fsize fs p
      | Except.error _ => (True : Prop)) := by
  cases a2 with
  | none => exact trivial
  | some fn2 =>
    show (match (match attemptGate fs cache url fc now (fixupExt2 fn2) with
          | some r => Except.ok r
          | none =>
            Except.error "Failed to download video after multiple attempts") with
      | Except.ok (p, _) => 0 < fsize fs p
      | Except.error _ => (True : Prop))
    rcases hg2 : attemptGate fs cache url fc now (fixupExt2 fn2) with _ | r2
    · exact trivial
    · exact (attemptGate_some hg2).2

/-- C4 (amended): the fresh-download success paths of `download_video` return
a file that exists with non-zero size (on a cache miss, any path it returns as
success passed the exists-and-non-empty gate); the separate-tracks fallback of
`download_video_with_audio_fallback` guarantees only that the returned file
exists — it may be zero-byte (see the counterexample). -/
theorem retrieval_verification_gate :
    (∀ (cache : CacheSt) (fs : FSm) (url fc : String) (now : Int)
        (a1 a2 : Option String),
      (get_cached_video_model cache fs url fc now).1 = none →
      (match download_video_model cache fs url fc now a1 a2 with
        | .ok (p, _) => 0 < fsize fs p
        | .error _ => True)) ∧
    (∀ (fs : FSm) (tv ta urlHash : String) (info : Option String)
        (remux : Option (Int × Option Nat)),
      (∀ title, info = some title → ta ≠ title ++ ".mp4") →
      (match separateTracks fs tv ta urlHash info remux with
        | .ok (p, g) => fexists g p = true
        | .error _ => True)) := by
  constructor
  · intro cache fs url fc now a1 a2 hmiss
    unfold download_video_model
    rw [hmiss]
    cases a1 with
    | some fn =>
      show (match (match attemptGate fs cache url fc now (fixupExt1 fs fn) with
            | some r => Except.ok r
            | none =>
              match a2 with
              | some fn2 =>
                match attemptGate fs cache url fc now (fixupExt2 fn2) with
                | some r => Except.ok r
                | none =>
                  Except.error "Failed to download video after multiple attempts"
              | none => Except.error "yt-dlp error") with
        | Except.ok (p, _) => 0 < fsize fs p
        | Except.error _ => (True : Prop))
      rcases hg1 : attemptGate fs cache url fc now (fixupExt1 fs fn) with _ | r1
      · exact second_attempt_gate fs cache url fc now a2
      · exact (attemptGate_some hg1).2
    | none =>
      exact second_attempt_gate fs cache url fc now a2
  · intro fs tv ta urlHash info remux hta
    unfold separateTracks
    by_cases hboth : fexists fs tv ∧ fexists fs ta
    · rw [if_pos hboth]
      cases info with
      | none => exact trivial
      | some title =>
        cases remux with
        | none => exact vof_gate (hta title rfl)
        | some p =>
          cases p with
          | mk rc outSize => exact remux_case_gate (hta title rfl)
    · rw [if_neg hboth]
      by_cases honly : fexists fs tv ∧ 0 < fsize fs tv
      · rw [if_pos honly]
        show fexists (frename fs tv (urlHash ++ ".mp4")) (urlHash ++ ".mp4") = true
        unfold fexists
        rw [frename_dst]
        exact honly.1
      · rw [if_neg honly]
        exact trivial

/-- Witness for the amended C4: a cache-miss fresh download of an existing
7-byte file, and a separate-tracks run whose returned file exists. -/
theorem retrieval_verification_gate_witness :
    (match download_video_model (fun _ => none)
        (fun q => if q = "f.mp4" then some 7 else none) "u" "best" 0
        (some "f.mp4") none with
      | .ok (p, _) =>
        0 < fsize (fun q => if q = "f.mp4" then some 7 else none) p
      | .error _ => True) ∧
    (match separateTracks
        (fun q => if q = "v.mp4" then some 3
                  else if q = "a.m4a" then some 5 else none)
        "v.mp4" "a.m4a" "h" (some "t") none with
      | .ok (p, g) => fexists g p = true
      | .error _ => True) :=
  ⟨retrieval_verification_gate.1 (fun _ => none)
      (fun q => if q = "f.mp4" then some 7 else none) "u" "best" 0
      (some "f.mp4") none rfl,
   retrieval_verification_gate.2
      (fun q => if q = "v.mp4" then some 3
                else if q = "a.m4a" then some 5 else none)
      "v.mp4" "a.m4a" "h" (some "t") none
      (by intro title h; cases h; decide)⟩

/-- C5: when the separate-tracks strategy holds a non-empty video-only file
(and the audio file arrived) but the Remuxer invocation fails — non-zero exit
or exception — the retrieval returns the video-only file, renamed to the final
output, rather than raising; the returned artifact has exactly the video
file's bytes. -/
theorem separate_tracks_video_only (fs : FSm) (tv ta urlHash title : String)
    (sv : Nat) (remux : Option (Int × Option Nat))
    (hv : fs tv = some sv) (hsv : 0 < sv) (ha : fexists fs ta = true)
    (hvfin : tv ≠ title ++ ".mp4") (hafin : ta ≠ title ++ ".mp4")
    (hfail : remux = none ∨ ∃ rc eff, remux = some (rc, eff) ∧ rc ≠ 0) :
    (match separateTracks fs tv ta urlHash (some title) remux with
      | .ok (p, g) => p = title ++ ".mp4" ∧ g p = some sv
      | .error _ => False) := by
  have hex_tv : fexists fs tv = true := by
    unfold fexists
    rw [hv]
    rfl
  have hsz_tv : 0 < fsize fs tv := by
    unfold fsize
    rw [hv]
    simpa using hsv
  unfold separateTracks
  rw [if_pos ⟨hex_tv, ha⟩]
  rcases hfail with rfl | ⟨rc, eff, rfl, hrc⟩
  · -- the ffmpeg invocation raised: the handler returns the renamed video file
    show (match videoOnlyFallback fs tv ta (title ++ ".mp4") with
      | .ok (p, g) => p = title ++ ".mp4" ∧ g p = some sv
      | .error _ => False)
    have hvof : videoOnlyFallback fs tv ta (title ++ ".mp4") =
        .ok (title ++ ".mp4",
          dropAudio (frename fs tv (title ++ ".mp4")) ta) := by
      unfold videoOnlyFallback
      rw [if_pos ⟨hex_tv, hsz_tv⟩]
    rw [hvof]
    refine ⟨rfl, ?_⟩
    have hval : dropAudio (frename fs tv (title ++ ".mp4")) ta
        (title ++ ".mp4") = fs tv := by
      unfold dropAudio
      by_cases hexa : fexists (frename fs tv (title ++ ".mp4")) ta = true
      · rw [if_pos hexa, fremove_other _ (Ne.symm hafin), frename_dst]
      · rw [if_neg hexa, frename_dst]
    rw [hval, hv]
  · -- ffmpeg ran and exited non-zero: the inner branch renames and returns
    show (match (match remuxBranch
          (remuxEffect fs (title ++ ".mp4") eff) tv ta (title ++ ".mp4") rc with
        | .ok r => Except.ok r
        | .error fsE => videoOnlyFallback fsE tv ta (title ++ ".mp4")) with
      | .ok (p, g) => p = title ++ ".mp4" ∧ g p = some sv
      | .error _ => False)
    have hfs1tv : remuxEffect fs (title ++ ".mp4") eff tv = fs tv := by
      cases eff with
      | none => rfl
      | some n =>
        show (if tv = title ++ ".mp4" then some n else fs tv) = fs tv
        rw [if_neg hvfin]
    have hex1 : fexists (remuxEffect fs (title ++ ".mp4") eff) tv = true := by
      unfold fexists
      rw [hfs1tv, hv]
      rfl
    have hval : dropAudio
        (frename (remuxEffect fs (title ++ ".mp4") eff) tv (title ++ ".mp4"))
        ta (title ++ ".mp4") = fs tv := by
      unfold dropAudio
      by_cases hexa : fexists
          (frename (remuxEffect fs (title ++ ".mp4") eff) tv (title ++ ".mp4"))
          ta = true
      · rw [if_pos hexa, fremove_other _ (Ne.symm hafin), frename_dst, hfs1tv]
      · rw [if_neg hexa, frename_dst, hfs1tv]
    have hexfin : fexists (dropAudio
        (frename (remuxEffect fs (title ++ ".mp4") eff) tv (title ++ ".mp4"))
        ta) (title ++ ".mp4") = true := by
      unfold fexists
      rw [hval, hv]
      rfl
    have hrb : remuxBranch (remuxEffect fs (title ++ ".mp4") eff) tv ta
        (title ++ ".mp4") rc =
        .ok (title ++ ".mp4", dropAudio
          (frename (remuxEffect fs (title ++ ".mp4") eff) tv (title ++ ".mp4"))
          ta) := by
      unfold remuxBranch
      rw [if_pos hrc, if_pos hex1, if_pos hexfin]
    rw [hrb]
    exact ⟨rfl, by rw [hval, hv]⟩

/-- Witness for C5: a 3-byte video file, an audio file, ffmpeg exiting 1. -/
theorem separate_tracks_video_only_witness :
    (match separateTracks
        (fun q => if q = "v.mp4" then some 3
                  else if q = "a.m4a" then some 5 else none)
        "v.mp4" "a.m4a" "h" (some "t") (some (1, none)) with
      | .ok (p, g) => p = "t" ++ ".mp4" ∧ g p = some 3
      | .error _ => False) :=
  separate_tracks_video_only
    (fun q => if q = "v.mp4" then some 3
              else if q = "a.m4a" then some 5 else none)
    "v.mp4" "a.m4a" "h" "t" 3 (some (1, none))
    rfl (by omega) rfl (by decide) (by decide)
    (Or.inr ⟨1, none, rfl, by omega⟩)

end BaapTube